import Mathlib

/-!
Verification of the offline content pipeline of the DemoPresentations app.

The development shallowly embeds the pipeline's source modules:

* `s3Service.ts` — the streaming downloader (`downloadFile`) and the catalog
  manifest fetch (`fetchFileList`);
* `dbService.ts` — the IndexedDB-backed binary object store
  (`saveFileToDB`, `getFileFromDB`);
* `zipService.ts` — the archive extraction / asset-rewriting engine
  (`processZipContent`), built on JSZip;
* `App.tsx` — the download state machine (`handleDownload`).

Bytes are modelled as `Nat`, byte buffers as `List Nat`, strings as Lean
`String`, and asynchronous effects as explicit state / event-log passing.
-/

namespace DemoPres

/-! ## String primitives

JavaScript string operations used by the sources, modelled over the character
list of a Lean `String` (so that every definition evaluates by kernel
reduction).  `toLowerCase` is modelled as ASCII per-character lowering; the
paths and extensions in scope are ASCII. -/

/-- JavaScript `s.toLowerCase()` (ASCII). -/
def lowerStr (s : String) : String :=
  String.mk (s.data.map Char.toLower)

/-- JavaScript `s.endsWith(suf)`. -/
def endsWithStr (s suf : String) : Bool :=
  List.isSuffixOf suf.data s.data

/-- JavaScript `s.startsWith(p)`. -/
def startsWithStr (s p : String) : Bool :=
  List.isPrefixOf p.data s.data

/-! ## Streaming downloader (`s3Service.ts`, `downloadFile`)

The streaming branch of `downloadFile` reads chunks from the response body,
accumulates them in an array, counts received bytes, and invokes the progress
callback after each chunk.  We model the stream as the list of chunks it
delivers (in arrival order), and the progress callback as a log of
`(received, total)` pairs in invocation order. -/

/-- One step of the read loop of `downloadFile`:
`chunks.push(value); received += value.length; onProgress(received, total)`.
Returns the final `received` counter, the accumulated chunk array and the
progress-callback log. -/
def downloadLoop (total : Nat) :
    List (List Nat) → Nat → List (List Nat) → List (Nat × Nat) →
    Nat × List (List Nat) × List (Nat × Nat)
  | [], received, acc, log => (received, acc, log)
  | v :: rest, received, acc, log =>
      downloadLoop total rest (received + v.length) (acc ++ [v])
        (log ++ [(received + v.length, total)])

/-- `allChunks.set(chunk, position)`: overwrite `chunk.length` bytes of `arr`
starting at offset `pos`. -/
def setAt (arr : List Nat) (pos : Nat) (chunk : List Nat) : List Nat :=
  arr.take pos ++ chunk ++ arr.drop (pos + chunk.length)

/-- The chunk-combining epilogue of `downloadFile`:
`const allChunks = new Uint8Array(received); … allChunks.set(chunk, position);
position += chunk.length`. -/
def combineChunks (received : Nat) (chunks : List (List Nat)) : List Nat :=
  (chunks.foldl (fun st ch => (setAt st.1 st.2 ch, st.2 + ch.length))
    (List.replicate received 0, 0)).1

/-- The streaming path of `downloadFile` (response ok, body present, progress
callback supplied): given the chunks the reader delivers and the total parsed
from the `Content-Length` header (0 when absent), returns the assembled byte
buffer and the progress log. -/
def downloadFile (chunks : List (List Nat)) (total : Nat) :
    List Nat × List (Nat × Nat) :=
  let r := downloadLoop total chunks 0 [] []
  (combineChunks r.1 r.2.1, r.2.2)

/-! ## Binary object store (`dbService.ts`)

IndexedDB is modelled as an association list from keys to stored values; a
`get` request on an absent key succeeds with `undefined` (here: a failed
lookup), per IndexedDB semantics.  The code stores blobs
(`new Blob([data], { type: 'application/zip' })`) and reads back either a
`Blob`, a `Uint8Array`, or anything else (mapped to `null`). -/

/-- A value held in the object store, as `getFileFromDB` discriminates them:
a `Blob` (with its MIME type), a raw `Uint8Array`, or any other value. -/
inductive DBValue where
  | blobVal (mime : String) (bytes : List Nat)
  | bytesVal (bytes : List Nat)
  | otherVal
deriving DecidableEq, Repr

/-- The object store's state: keyed records, newest binding first. -/
def DBStore := List (String × DBValue)

/-- `store.put(value, key)`: overwrite any existing binding for `key`. -/
def dbPut (store : DBStore) (key : String) (v : DBValue) : DBStore :=
  (key, v) :: List.filter (fun p => p.1 ≠ key) store

/-- `store.get(key)`: the request succeeds with the stored value, or with
`undefined` (modelled `none`) when the key is absent. -/
def dbGet (store : DBStore) (key : String) : Option DBValue :=
  (List.find? (fun p => p.1 = key) store).map Prod.snd

/-- `saveFileToDB`: wrap the bytes in a Blob typed `application/zip` and `put`
it under the key. -/
def saveFileToDB (store : DBStore) (key : String) (data : List Nat) : DBStore :=
  dbPut store key (.blobVal "application/zip" data)

/-- `getFileFromDB`.  `reqOk` is whether the underlying IndexedDB request
succeeds (its `onerror`, a storage-layer failure, rejects the promise —
modelled as `.error`).  On request success the code converts a `Blob` result
back to bytes, passes a `Uint8Array` through, and resolves `null` for anything
else — in particular for the `undefined` result of a `get` on an absent key,
which per IndexedDB semantics is a *successful* request. -/
def getFileFromDB (store : DBStore) (reqOk : Bool) (key : String) :
    Except String (Option (List Nat)) :=
  if !reqOk then .error "request error"
  else .ok (
    match dbGet store key with
    | some (.blobVal _ b) => some b
    | some (.bytesVal b) => some b
    | some .otherVal => none
    | none => none)

/-! ## Catalog manifest (`s3Service.ts`, `fetchFileList`) -/

/-- One element of `library.json` as the code reads it (`ManifestItem`):
`file` plus optional `id`, `title`, `size`, `thumbnail`.  The code accesses
these fields directly on the parsed JSON elements (a TypeScript cast, no
per-field validation), so array elements are modelled at this type. -/
structure ManifestItem where
  id : Option String
  file : String
  title : Option String
  size : Option String
  thumbnail : Option String
deriving DecidableEq, Repr

/-- The JSON value `response.json()` produces for the manifest: either an
array (whose elements the code casts to `ManifestItem`) or any non-array
JSON value. -/
inductive ManifestJson where
  | arr (items : List ManifestItem)
  | obj
  | str (s : String)
  | num (n : Int)
  | boolVal (b : Bool)
  | null
deriving DecidableEq, Repr

/-- A catalog item as the UI consumes it (`FileItem`), restricted to the
fields `fetchFileList` populates. -/
structure FileItem where
  id : String
  key : String
  title : String
  sizeLabel : String
  thumbnailUrl : Option String
deriving DecidableEq, Repr

/-- Strip trailing `/` characters: `baseUrl.replace(/\/+$/, "")`. -/
def stripTrailingSlashes (s : String) : String :=
  ⟨(s.data.reverse.dropWhile (fun c => c = '/')).reverse⟩

/-- Strip one leading `./` or `/` if present; `none` when neither matches. -/
def stripOneLeading (cs : List Char) : Option (List Char) :=
  match cs with
  | '.' :: '/' :: rest => some rest
  | '/' :: rest => some rest
  | _ => none

/-- Strip the maximal run of leading `./` and `/` markers:
`path.replace(/^(\.\/|\/)+/, "")`. -/
def stripLeadingMarks : Nat → List Char → List Char
  | 0, cs => cs
  | fuel + 1, cs =>
      match stripOneLeading cs with
      | some rest => stripLeadingMarks fuel rest
      | none => cs

/-- `joinUrl`: absolute URLs pass through; otherwise join the slash-trimmed
base and the marker-trimmed path with exactly one `/`. -/
def joinUrl (baseUrl path : String) : String :=
  if path = "" then baseUrl
  else if startsWithStr path "http://" || startsWithStr path "https://" then path
  else
    stripTrailingSlashes baseUrl ++ "/" ++
      String.mk (stripLeadingMarks path.data.length path.data)

/-- JavaScript `a || b` on an optional string field: `none` and the empty
string are falsy. -/
def jsOrStr (a : Option String) (b : String) : String :=
  match a with
  | some s => if s = "" then b else s
  | none => b

/-- The per-element mapping of `fetchFileList`: defaults and thumbnail
resolution. -/
def manifestToFileItem (baseUrl : String) (item : ManifestItem) : FileItem :=
  { id := jsOrStr item.id item.file
    key := item.file
    title := jsOrStr item.title item.file
    sizeLabel := jsOrStr item.size "Unknown"
    thumbnailUrl :=
      match item.thumbnail with
      | some t => if t = "" then none else some (joinUrl baseUrl t)
      | none => none }

/-- The post-parse logic of `fetchFileList`: reject a non-array manifest,
otherwise map every element to a `FileItem`. -/
def fetchFileList (baseUrl : String) (data : ManifestJson) :
    Except String (List FileItem) :=
  match data with
  | .arr items => .ok (items.map (manifestToFileItem baseUrl))
  | _ => .error "Invalid library format. Expected a JSON array."

/-! ## Download state machine (`App.tsx`, `handleDownload`) -/

/-- The closed status variants a catalog item moves through. -/
inductive Status where
  | remote
  | downloading
  | ready
  | errorSt
deriving DecidableEq, Repr

/-- The slice of a UI `FileItem` that `handleDownload` mutates. -/
structure Item where
  key : String
  status : Status
  downloadProgress : Option Nat
  errorMsg : Option String
deriving DecidableEq, Repr

/-- `setFiles(prev => prev.map(f => f.key === key ? upd f : f))`. -/
def setItem (files : List Item) (key : String) (upd : Item → Item) :
    List Item :=
  files.map (fun it => if it.key = key then upd it else it)

/-- `handleDownload` for one item, with the combined outcome of
`downloadFile` + `saveFileToDB` supplied as a parameter: mark the item
downloading, then on success mark progress 100 and finally ready; on any
failure mark the item errored with the fixed message. -/
def handleDownload (files : List Item) (key : String)
    (outcome : Except String (List Nat)) : List Item :=
  let files1 := setItem files key
    (fun it => { it with status := .downloading, downloadProgress := some 0 })
  match outcome with
  | .ok _ =>
      let files2 := setItem files1 key
        (fun it => { it with downloadProgress := some 100 })
      setItem files2 key
        (fun it => { it with status := .ready, downloadProgress := none })
  | .error _ =>
      setItem files1 key
        (fun it => { it with status := .errorSt,
                             errorMsg := some "Download failed" })

/-! ## Archive model (`zipService.ts`, `processZipContent`)

A loaded JSZip archive is modelled as its `files` dictionary: a list of
entries in enumeration order (`Object.keys` order), each with its
forward-slash path and directory flag.  Entry text content is supplied by a
`texts` map (the permissive `async("string")` decode), and whether the binary
read `async("blob")` of an entry succeeds by a `blobOk` oracle (it rejects on
corrupt entry data).  `URL.createObjectURL` is modelled as an abstract supply
`urls : Nat → String` of locators drawn in creation order, and every
`URL.createObjectURL` / `URL.revokeObjectURL` call is recorded in an event
log (the source contains no revoke calls). -/

/-- One entry of the loaded archive's `files` dictionary. -/
structure ZipEntry where
  path : String
  isDir : Bool
deriving DecidableEq, Repr

/-- An object-URL lifecycle event: creation records the MIME type the backing
`Blob` was given. -/
inductive UrlEvent where
  | create (u : String) (mime : String)
  | revoke (u : String)
deriving DecidableEq, Repr

/-- Is the event a `URL.revokeObjectURL` call? -/
def isRevokeEv : UrlEvent → Bool
  | .revoke _ => true
  | .create _ _ => false

/-- JSZip's `zip.file(name)`: exact-path dictionary lookup, returning `null`
for directory entries. -/
def zipFileByName (entries : List ZipEntry) (nm : String) : Option ZipEntry :=
  match List.find? (fun e => e.path = nm) entries with
  | some e => if e.isDir then none else some e
  | none => none

/-- `/^index\.html$/i.test(path)`: the anchored, case-insensitive match
succeeds exactly when the whole path lowercases to `index.html`. -/
def indexHtmlTest (nm : String) : Bool :=
  lowerStr nm = "index.html"

/-- Steps 1 of `processZipContent`: `loadedZip.file(/^index\.html$/i)[0]`,
falling back to the first dictionary key ending in `.html` (looked up through
`zip.file`, which yields `null` on a directory).  `none` means the code throws
`"No HTML file found in the archive."`. -/
def findEntryPoint (entries : List ZipEntry) : Option ZipEntry :=
  let rxMatches := List.filter (fun e => !e.isDir && indexHtmlTest e.path) entries
  match rxMatches.head? with
  | some e => some e
  | none =>
      let htmlFiles :=
        List.filter (fun nm => endsWithStr (lowerStr nm) ".html")
          (entries.map (fun e => e.path))
      match htmlFiles.head? with
      | some nm => zipFileByName entries nm
      | none => none

/-- The extension-to-MIME chain of the asset loop; `""` means the entry is not
a recognized asset. -/
def mimeFor (filename : String) : String :=
  let lower := lowerStr filename
  if endsWithStr lower ".png" then "image/png"
  else if endsWithStr lower ".jpg" || endsWithStr lower ".jpeg" then
    "image/jpeg"
  else if endsWithStr lower ".svg" then "image/svg+xml"
  else if endsWithStr lower ".css" then "text/css"
  else if endsWithStr lower ".js" then "application/javascript"
  else ""

/-- The state threaded through the asset loop: the `assetMap` bindings in
insertion order, the number of object URLs created, and the URL event log. -/
structure AssetState where
  assetMap : List (String × String)
  next : Nat
  events : List UrlEvent
deriving Repr

/-- `createBlobUrl`: look the file up (skipping directories), read its blob —
which may reject on corrupt data, failing the whole resolution — and mint a
fresh object URL for it. -/
def createBlobUrl (entries : List ZipEntry) (blobOk : String → Bool)
    (urls : Nat → String) (st : AssetState) (fileName mimeType : String) :
    Except String (Option String × AssetState) :=
  match zipFileByName entries fileName with
  | some _ =>
      if blobOk fileName then
        .ok (some (urls st.next),
          { st with next := st.next + 1,
                    events := st.events ++ [.create (urls st.next) mimeType] })
      else .error "corrupt entry data"
  | none => .ok (none, st)

/-- The asset loop of `processZipContent`: for each dictionary key with a
recognized extension, create a blob URL and record it in `assetMap`; a failed
blob read aborts the loop (and the enclosing resolution) immediately. -/
def assetLoop (entries : List ZipEntry) (blobOk : String → Bool)
    (urls : Nat → String) : List String → AssetState →
    Except String AssetState × AssetState
  | [], st => (.ok st, st)
  | fn :: rest, st =>
      let mime := mimeFor fn
      if mime = "" then assetLoop entries blobOk urls rest st
      else
        match createBlobUrl entries blobOk urls st fn mime with
        | .error e => (.error e, st)
        | .ok (none, st') => assetLoop entries blobOk urls rest st'
        | .ok (some url, st') =>
            assetLoop entries blobOk urls rest
              { st' with assetMap := st'.assetMap ++ [(fn, url)] }

/-! ## Reference rewriting (`processZipContent`, step 4)

For each asset `filename ↦ url`, the code runs the global regex replace

    htmlContent.replace(new RegExp(`(src|href)=["'](\./)?ESC(filename)["']`, 'g'),
                        `$1="url"`)

where `ESC` escapes regex metacharacters, so `filename` is matched literally.
We embed the regex engine's behaviour on this pattern: scan left to right,
and at each position try to match `(src|href)`, `=`, a quote, the greedy
optional `./`, the literal filename, and a quote — backtracking the optional
group if its continuation fails. -/

/-- Match a literal character list as a prefix, returning the remainder. -/
def dropLit : List Char → List Char → Option (List Char)
  | [], s => some s
  | _ :: _, [] => none
  | p :: ps, c :: cs => if p = c then dropLit ps cs else none

/-- Is the character one of the regex's quote class `["']`? -/
def isQuoteCh (c : Char) : Bool :=
  c = '"' || c = '\''

/-- Consume one quote-class character. -/
def dropQuote : List Char → Option (List Char)
  | c :: cs => if isQuoteCh c then some cs else none
  | [] => none

/-- Match `(src|href)=` at the head of `s`, returning the attribute name and
the remainder (the alternation tries `src` first, as the regex does). -/
def matchAttr (s : List Char) : Option (String × List Char) :=
  match dropLit "src=".data s with
  | some r => some ("src", r)
  | none =>
      match dropLit "href=".data s with
      | some r => some ("href", r)
      | none => none

/-- Match `(\./)?NAME["']` at the head of `s`: the greedy optional group
first tries `./NAME` and, if the closing quote then fails, backtracks to
matching `NAME` alone. -/
def matchTail (name : String) (s : List Char) : Option (List Char) :=
  match dropLit ("./" ++ name).data s with
  | some r =>
      match dropQuote r with
      | some r2 => some r2
      | none =>
          match dropLit name.data s with
          | some r3 => dropQuote r3
          | none => none
  | none =>
      match dropLit name.data s with
      | some r3 => dropQuote r3
      | none => none

/-- Match the whole pattern `(src|href)=["'](\./)?NAME["']` at the head of
`s`, returning the captured attribute and the remainder after the match. -/
def patMatch (name : String) (s : List Char) : Option (String × List Char) :=
  match matchAttr s with
  | none => none
  | some (attr, r) =>
      match dropQuote r with
      | none => none
      | some r1 => (matchTail name r1).map (fun r2 => (attr, r2))

/-- The replacement text `$1="url"` for a match with attribute `attr`. -/
def replacementText (attr url : String) : List Char :=
  (attr ++ "=\"" ++ url ++ "\"").data

/-- The global-replace scan: find the leftmost match, substitute, and resume
after it.  Fuel bounds the recursion; every match consumes at least one
character, so `s.length` fuel is always enough. -/
def replaceScan (name url : String) : Nat → List Char → List Char
  | _, [] => []
  | 0, s => s
  | fuel + 1, c :: rest =>
      match patMatch name (c :: rest) with
      | some (attr, r2) =>
          replacementText attr url ++ replaceScan name url fuel r2
      | none => c :: replaceScan name url fuel rest

/-- One asset's pass: `htmlContent.replace(regex, ...)` over the whole text. -/
def replaceRefs (name url : String) (html : String) : String :=
  String.mk (replaceScan name url html.data.length html.data)

/-- Step 4 of `processZipContent`: one replace pass per `assetMap` binding, in
insertion order. -/
def rewriteHtml (assets : List (String × String)) (html : String) : String :=
  assets.foldl (fun h p => replaceRefs p.1 p.2 h) html

/-- The whole of `processZipContent`: entry-point selection, text load, asset
materialization, and reference rewriting.  Returns the rewritten document (or
the error thrown) together with the object-URL event log of the run. -/
def processZipContent (entries : List ZipEntry) (texts : String → String)
    (blobOk : String → Bool) (urls : Nat → String) :
    Except String String × List UrlEvent :=
  match findEntryPoint entries with
  | none => (.error "No HTML file found in the archive.", [])
  | some e =>
      let htmlContent := texts e.path
      let r := assetLoop entries blobOk urls (entries.map (fun e => e.path))
        { assetMap := [], next := 0, events := [] }
      match r.1 with
      | .error msg => (.error msg, r.2.events)
      | .ok st => (.ok (rewriteHtml st.assetMap htmlContent), st.events)

/-! ## Specification-side definitions

The following definitions transcribe the *spec's / claims'* wording (amended
where a counterexample forces it), to be compared with the definitions above
that embed the source. -/

/-- Spec/claim wording of entry-point selection, amended to what the source
does: first the case-insensitive search for a non-directory entry whose whole
path is `index.html` (so, at the archive root only); failing that, the first
entry whose lowercased path ends in `.html` (`.htm` is not accepted), which
must not be a directory. -/
def entryPointSpec (entries : List ZipEntry) : Option ZipEntry :=
  match List.find? (fun e => !e.isDir && lowerStr e.path = "index.html") entries with
  | some e => some e
  | none =>
      match List.find? (fun e => endsWithStr (lowerStr e.path) ".html") entries with
      | some e => if e.isDir then none else some e
      | none => none

/-- The claim's table of recognized asset extensions and their content types,
in the order the claim lists them. -/
def recognizedExts : List (String × String) :=
  [(".png", "image/png"), (".jpg", "image/jpeg"), (".jpeg", "image/jpeg"),
   (".svg", "image/svg+xml"), (".css", "text/css"), (".js", "application/javascript")]

/-- The claim's classification: the content type attached to a filename whose
lowercased name ends in a recognized extension, `none` otherwise. -/
def claimMime (nm : String) : Option String :=
  (List.find? (fun p => endsWithStr (lowerStr nm) p.1) recognizedExts).map Prod.snd

/-- The claim's asset discovery: the non-directory entries with a recognized
extension, in archive order, each with its content type. -/
def claimAssetList (entries : List ZipEntry) : List (String × String) :=
  (List.filter (fun e => !e.isDir) entries).filterMap
    (fun e => (claimMime e.path).map (fun m => (e.path, m)))

/-- Spec/claim wording of one occurrence of a rewritable reference, tried at
the head of `s`: an attribute `src`/`href`, `=`, a quote, the asset's path
either exactly or prefixed with a single `./` (the prefixed form first), and
a closing quote chosen independently of the opening one.  Returns the matched
attribute and the remainder of the text after the occurrence. -/
def occAt (path : String) (s : List Char) : Option (String × List Char) :=
  List.findSome? (fun attr =>
    List.findSome? (fun body =>
      List.findSome? (fun q1 =>
        List.findSome? (fun q2 =>
          (dropLit (attr.data ++ '=' :: q1 :: (body.data ++ [q2])) s).map
            (fun rest => (attr, rest)))
          ['"', '\''])
        ['"', '\''])
      ["./" ++ path, path])
    ["src", "href"]

/-- Spec/claim wording of one asset's rewrite pass: scan left to right; an
occurrence of the asset's reference is substituted by `attr="url"` and the
scan resumes after it; all other characters are copied unchanged. -/
def specScanRefs (path url : String) : Nat → List Char → List Char
  | _, [] => []
  | 0, s => s
  | fuel + 1, c :: rest =>
      match occAt path (c :: rest) with
      | some (attr, r2) =>
          replacementText attr url ++ specScanRefs path url fuel r2
      | none => c :: specScanRefs path url fuel rest

/-- Spec/claim wording of the whole rewrite: one pass per materialized asset,
in the archive's listed order. -/
def rewriteHtmlSpec (assets : List (String × String)) (html : String) : String :=
  assets.foldl
    (fun h p => String.mk (specScanRefs p.1 p.2 h.data.length h.data)) html

/-- The claim's asset materialization: each classified asset, in order, is
mapped to a fresh locator, drawn from the supply in creation order starting
at index `n`. -/
def claimAssetMap (urls : Nat → String) : Nat → List (String × String) →
    List (String × String)
  | _, [] => []
  | n, pm :: rest => (pm.1, urls n) :: claimAssetMap urls (n + 1) rest

/-- The claim's handle-creation trace: one creation event per classified
asset, in order, carrying the asset's content type. -/
def claimHandleEvents (urls : Nat → String) : Nat → List (String × String) →
    List UrlEvent
  | _, [] => []
  | n, pm :: rest => .create (urls n) pm.2 :: claimHandleEvents urls (n + 1) rest

/-- The spec's description of the progress log of one streamed fetch: one
callback per received chunk, reporting the running byte count against the
header total. -/
def progressLogSpec (total : Nat) : Nat → List (List Nat) → List (Nat × Nat)
  | _, [] => []
  | base, v :: rest =>
      (base + v.length, total) :: progressLogSpec total (base + v.length) rest

/-! ## Helper lemmas: downloader -/

theorem downloadLoop_eq (total : Nat) (l : List (List Nat)) :
    ∀ received acc log, downloadLoop total l received acc log =
      (received + (l.map List.length).sum, acc ++ l,
        log ++ progressLogSpec total received l) := by
  induction l with
  | nil => intro received acc log; simp [downloadLoop, progressLogSpec]
  | cons v rest ih =>
      intro received acc log
      rw [downloadLoop, progressLogSpec, ih]
      simp [Nat.add_assoc]

theorem setAt_aligned (pre arr chunk : List Nat) :
    setAt (pre ++ arr) pre.length chunk = pre ++ chunk ++ arr.drop chunk.length := by
  unfold setAt
  rw [List.take_left, List.drop_append, List.append_assoc]

theorem combine_fold (l : List (List Nat)) :
    ∀ pre arr : List Nat, arr.length = (l.map List.length).sum →
      (l.foldl (fun st ch => (setAt st.1 st.2 ch, st.2 + ch.length))
          (pre ++ arr, pre.length)).1 = pre ++ l.flatten := by
  induction l with
  | nil =>
      intro pre arr h
      simp at h
      simp [h]
  | cons ch rest ih =>
      intro pre arr h
      simp only [List.map_cons, List.sum_cons] at h
      have hle : ch.length ≤ arr.length := by omega
      rw [List.foldl_cons, setAt_aligned]
      have harr : (arr.drop ch.length).length = (rest.map List.length).sum := by
        simp [List.length_drop]; omega
      have hpos : pre.length + ch.length = (pre ++ ch).length := by
        simp [List.length_append]
      rw [List.append_assoc] at *
      have := ih (pre ++ ch) (arr.drop ch.length) harr
      rw [hpos]
      rw [← List.append_assoc pre ch (arr.drop ch.length)]
      rw [this]
      simp

theorem progressLogSpec_length (total : Nat) (l : List (List Nat)) :
    ∀ base, (progressLogSpec total base l).length = l.length := by
  induction l with
  | nil => intro base; rfl
  | cons v rest ih => intro base; simp [progressLogSpec, ih]

theorem progressLogSpec_head_ge (total : Nat) (l : List (List Nat)) :
    ∀ base p, (progressLogSpec total base l).head? = some p → base ≤ p.1 := by
  induction l with
  | nil => intro base p h; cases h
  | cons v rest _ =>
      intro base p h
      rw [progressLogSpec] at h
      simp at h
      subst h
      simp

theorem progressLogSpec_chain (total : Nat) (l : List (List Nat)) :
    ∀ base, List.Chain' (fun a b : Nat × Nat => a.1 ≤ b.1)
      (progressLogSpec total base l) := by
  induction l with
  | nil => intro base; simp [progressLogSpec]
  | cons v rest ih =>
      intro base
      rw [progressLogSpec]
      refine List.chain'_cons'.mpr ⟨?_, ih _⟩
      intro y hy
      have := progressLogSpec_head_ge total rest (base + v.length) y hy
      omega

theorem progressLogSpec_getLast (total : Nat) (l : List (List Nat)) :
    ∀ base, l ≠ [] → (progressLogSpec total base l).getLast? =
      some (base + (l.map List.length).sum, total) := by
  induction l with
  | nil => intro base h; cases h rfl
  | cons v rest ih =>
      intro base _
      cases rest with
      | nil => simp [progressLogSpec]
      | cons w t =>
          rw [progressLogSpec]
          rw [progressLogSpec]
          rw [List.getLast?_cons_cons]
          have := ih (base + v.length) (by simp)
          rw [progressLogSpec] at this
          rw [this]
          simp [Nat.add_assoc]

/-! ## Claims about the downloader -/

/-- C5: for every successful streamed fetch, the returned byte sequence is
exactly the concatenation of the received chunks in receipt (append) order,
with total length equal to the sum of the chunk lengths, independent of chunk
sizes — no gaps, no duplicated bytes. -/
theorem downloadFile_exact_concat (chunks : List (List Nat)) (total : Nat) :
    (downloadFile chunks total).1 = chunks.flatten ∧
    (downloadFile chunks total).1.length = (chunks.map List.length).sum := by
  have hmain : (downloadFile chunks total).1 = chunks.flatten := by
    unfold downloadFile
    rw [downloadLoop_eq]
    simp only
    unfold combineChunks
    have := combine_fold chunks []
      (List.replicate ((chunks.map List.length).sum) 0) (by simp)
    simpa using this
  refine ⟨hmain, ?_⟩
  rw [hmain]
  simp [List.length_flatten]

/-- C4 (amended): during one streamed fetch the reported `received` values are
non-decreasing, and the callback fires exactly once per received chunk — hence
zero times when the stream delivers no chunks, rather than "at least once"; when
at least one chunk arrives, the final invocation reports the full received byte
count against the header total (so `received == total` whenever the
Content-Length total is accurate). -/
theorem downloadFile_progress (chunks : List (List Nat)) (total : Nat) :
    List.Chain' (fun a b : Nat × Nat => a.1 ≤ b.1) (downloadFile chunks total).2 ∧
    (downloadFile chunks total).2.length = chunks.length ∧
    (chunks ≠ [] → (downloadFile chunks total).2.getLast? =
      some ((chunks.map List.length).sum, total)) := by
  have hlog : (downloadFile chunks total).2 = progressLogSpec total 0 chunks := by
    unfold downloadFile
    rw [downloadLoop_eq]
    simp
  refine ⟨?_, ?_, ?_⟩
  · rw [hlog]; exact progressLogSpec_chain total chunks 0
  · rw [hlog]; exact progressLogSpec_length total chunks 0
  · intro hne
    rw [hlog]
    have := progressLogSpec_getLast total chunks 0 hne
    simpa using this

/-- C4 witness: the amended progress property evaluated on a concrete
two-chunk fetch with an accurate three-byte total. -/
theorem downloadFile_progress_witness :
    List.Chain' (fun a b : Nat × Nat => a.1 ≤ b.1)
      (downloadFile [[1, 2], [3]] 3).2 ∧
    (downloadFile [[1, 2], [3]] 3).2.getLast? = some (3, 3) := by
  refine ⟨(downloadFile_progress [[1, 2], [3]] 3).1, ?_⟩
  have h := (downloadFile_progress [[1, 2], [3]] 3).2.2 (by decide)
  rw [h]
  decide

/-- C4 counterexample: a successful streamed fetch with a progress callback
supplied whose body delivers zero chunks (a zero-byte resource) produces an
empty progress log — the callback is never invoked, contradicting "onProgress
is invoked at least once (at completion) even when no progress events were
delivered mid-stream". -/
theorem downloadFile_progress_cex : (downloadFile [] 0).2 = [] := rfl

/-! ## Claims about the object store -/

/-- C6: storing bytes under a key and then immediately reading that key back
(with a healthy storage layer) returns byte-for-byte identical content. -/
theorem save_then_get_roundtrip (store : DBStore) (key : String)
    (data : List Nat) :
    getFileFromDB (saveFileToDB store key data) true key = .ok (some data) := by
  simp [getFileFromDB, saveFileToDB, dbPut, dbGet, List.find?]

/-- C7: a get on a key absent from the store succeeds with the explicit
not-found result (`null`), rather than failing with an error, so callers can
tell an absent object from a storage failure. -/
theorem get_absent_is_null (store : DBStore) (key : String)
    (h : dbGet store key = none) :
    getFileFromDB store true key = .ok none := by
  simp [getFileFromDB, h]

/-- C7 witness: the empty store has no binding for the key, and reading it
yields the successful not-found result. -/
theorem get_absent_is_null_witness :
    dbGet ([] : DBStore) "missing" = none ∧
    getFileFromDB ([] : DBStore) true "missing" = .ok none :=
  ⟨rfl, get_absent_is_null [] "missing" rfl⟩

/-! ## Claims about the download state machine -/

/-- C8 (amended): a failed download marks the affected item with status
`error` and message "Download failed" — not its pre-download `remote` state —
and leaves every other item untouched; retry remains possible through the
error state's retry action. -/
theorem handleDownload_failure_sets_error (files : List Item) (key msg : String) :
    handleDownload files key (.error msg) =
      files.map (fun it =>
        if it.key = key then
          { it with status := .errorSt, downloadProgress := some 0,
                    errorMsg := some "Download failed" }
        else it) := by
  simp only [handleDownload, setItem, List.map_map]
  congr 1
  funext it
  by_cases h : it.key = key <;> simp [h, Function.comp]

/-- C8 counterexample: a catalog item in its pre-download `remote` state whose
download fails ends in status `error`, not back in `remote` — the status does
not revert to the pre-download state. -/
theorem handleDownload_failure_cex :
    (handleDownload [⟨"a.zip", .remote, none, none⟩] "a.zip"
        (.error "network")).map Item.status = [Status.errorSt] ∧
    Status.errorSt ≠ Status.remote := by decide

/-! ## Claims about the manifest fetch -/

/-- C10: a manifest that fetches successfully but parses to a JSON value that
is not an array makes `fetchFileList` fail with the invalid-format error and
return no items. -/
theorem fetchFileList_rejects_non_array (baseUrl : String) (data : ManifestJson)
    (h : ∀ items, data ≠ ManifestJson.arr items) :
    fetchFileList baseUrl data =
      .error "Invalid library format. Expected a JSON array." := by
  cases data <;> first | rfl | exact absurd rfl (h _)

/-- C10 witness: the JSON value `null` is not an array, and is rejected with
the invalid-format error. -/
theorem fetchFileList_rejects_non_array_witness :
    fetchFileList "https://example.test" ManifestJson.null =
      .error "Invalid library format. Expected a JSON array." :=
  fetchFileList_rejects_non_array _ _ (fun _ h => ManifestJson.noConfusion h)

/-! ## Helper lemmas: entry-point selection -/

theorem head?_filter_eq_find? {α} (p : α → Bool) (l : List α) :
    (l.filter p).head? = l.find? p := by
  induction l with
  | nil => rfl
  | cons a t ih => by_cases h : p a <;> simp [List.filter_cons, List.find?, h, ih]

theorem find?_path_of_find? (q : String → Bool) :
    ∀ (entries : List ZipEntry) (e : ZipEntry),
      List.find? (fun x => q x.path) entries = some e →
      List.find? (fun x => x.path = e.path) entries = some e := by
  intro entries
  induction entries with
  | nil => intro e h; cases h
  | cons a t ih =>
      intro e h
      by_cases ha : q a.path
      · rw [List.find?_cons_of_pos _ (by simpa using ha)] at h
        obtain rfl : a = e := by simpa using h
        rw [List.find?_cons_of_pos]
        simp
      · rw [List.find?_cons_of_neg _ (by simpa using ha)] at h
        have hqe : q e.path = true := by
          have := List.find?_some h
          simpa using this
        have hne : a.path ≠ e.path := fun hp => ha (by rw [hp]; exact hqe)
        rw [List.find?_cons_of_neg _ (by simpa using hne)]
        exact ih e h

/-- C1 (amended): entry-point selection behaves as specified once amended to
the source: first the case-insensitive search for a non-directory entry whose
whole path is `index.html` (so at the archive root only, not at any depth);
failing that, the first entry in listed order whose lowercased path ends in
`.html` (`.htm` is not accepted), which must moreover not be a directory;
otherwise resolution fails. -/
theorem findEntryPoint_eq_spec (entries : List ZipEntry) :
    findEntryPoint entries = entryPointSpec entries := by
  unfold findEntryPoint entryPointSpec
  simp only [indexHtmlTest, head?_filter_eq_find?, List.find?_map,
    Function.comp_def]
  cases h1 : List.find?
      (fun e : ZipEntry => !e.isDir && decide (lowerStr e.path = "index.html"))
      entries with
  | some e => simp
  | none =>
      simp only
      cases h2 : List.find?
          (fun e : ZipEntry => endsWithStr (lowerStr e.path) ".html") entries with
      | none => simp
      | some e1 =>
          simp only [Option.map]
          unfold zipFileByName
          rw [find?_path_of_find?
            (fun s => endsWithStr (lowerStr s) ".html") entries e1 h2]

/-- C1 counterexample: two archives on which the claim's selection rule
disagrees with the code. (i) An archive whose only entry is `page.htm` fails
resolution (`none`), although the claim's `.html`/`.htm` fallback selects
`page.htm`. (ii) An archive listing `b.html` before `sub/index.html` selects
`b.html`, although the claim's "index.html at any depth has priority" rule
selects `sub/index.html`. -/
theorem findEntryPoint_cex :
    findEntryPoint [⟨"page.htm", false⟩] = none ∧
    findEntryPoint [⟨"b.html", false⟩, ⟨"sub/index.html", false⟩] =
      some ⟨"b.html", false⟩ := by decide

/-! ## Helper lemmas: asset materialization and handle lifecycle -/

theorem assetLoop_no_revoke (entries : List ZipEntry) (blobOk : String → Bool)
    (urls : Nat → String) :
    ∀ (fns : List String) (st : AssetState),
      (assetLoop entries blobOk urls fns st).2.events.filter isRevokeEv =
        st.events.filter isRevokeEv := by
  intro fns
  induction fns with
  | nil => intro st; rfl
  | cons fn rest ih =>
      intro st
      simp only [assetLoop]
      by_cases hm : mimeFor fn = ""
      · rw [if_pos hm]; exact ih st
      · rw [if_neg hm]
        unfold createBlobUrl
        cases hz : zipFileByName entries fn with
        | none => exact ih st
        | some e =>
            cases hb : blobOk fn with
            | false => rfl
            | true =>
                show (assetLoop entries blobOk urls rest _).2.events.filter isRevokeEv = _
                rw [ih]
                simp [List.filter_append, isRevokeEv]

theorem assetLoop_ok_snd (entries : List ZipEntry) (blobOk : String → Bool)
    (urls : Nat → String) :
    ∀ (fns : List String) (st st' : AssetState),
      (assetLoop entries blobOk urls fns st).1 = .ok st' →
      st' = (assetLoop entries blobOk urls fns st).2 := by
  intro fns
  induction fns with
  | nil =>
      intro st st' h
      simp only [assetLoop] at h ⊢
      cases h
      rfl
  | cons fn rest ih =>
      intro st st' h
      simp only [assetLoop] at h ⊢
      by_cases hm : mimeFor fn = ""
      · rw [if_pos hm] at h ⊢; exact ih st st' h
      · rw [if_neg hm] at h ⊢
        unfold createBlobUrl at h ⊢
        revert h
        cases hz : zipFileByName entries fn with
        | none => intro h; exact ih st st' h
        | some e =>
            cases hb : blobOk fn with
            | false => intro h; exact absurd h (by simp)
            | true => intro h; exact ih _ st' h

/-- C3 (amended): a failure partway through asset materialization aborts the
whole resolution — the error propagates and no document is produced — but the
handles already created are not released: no run of `processZipContent`,
failed or successful, ever emits a revocation event (the source contains no
`URL.revokeObjectURL` call), so every handle created before a
mid-materialization failure outlives the failed resolution. -/
theorem processZipContent_never_revokes (entries : List ZipEntry)
    (texts : String → String) (blobOk : String → Bool) (urls : Nat → String) :
    ((processZipContent entries texts blobOk urls).2).filter isRevokeEv = [] := by
  unfold processZipContent
  cases hep : findEntryPoint entries with
  | none => rfl
  | some e =>
      simp only
      have h := assetLoop_no_revoke entries blobOk urls
        (entries.map (fun x => x.path)) { assetMap := [], next := 0, events := [] }
      cases hr : (assetLoop entries blobOk urls (entries.map (fun x => x.path))
          { assetMap := [], next := 0, events := [] }).1 with
      | error msg => simpa [hr] using h
      | ok st =>
          have hsnd := assetLoop_ok_snd entries blobOk urls
            (entries.map (fun x => x.path))
            { assetMap := [], next := 0, events := [] } st hr
          simpa [hr, ← hsnd] using h

/-- C3 counterexample: a concrete resolution that fails on its second asset
(`b.png` has corrupt entry data) after materializing a handle for `a.png`:
the run aborts with the error, the event log shows the created handle, and no
release (revoke) event exists — the handle created during the failed
resolution outlives it. -/
theorem processZipContent_leak_cex :
    processZipContent
        [⟨"index.html", false⟩, ⟨"a.png", false⟩, ⟨"b.png", false⟩]
        (fun _ => "") (fun fn => fn != "b.png")
        (fun n => "blob:" ++ String.mk (List.replicate n 'x')) =
      (.error "corrupt entry data",
        [UrlEvent.create "blob:" "image/png"]) := rfl

/-! ## Helper lemmas: asset classification -/

theorem claimMime_eq_mimeFor (nm : String) :
    claimMime nm = if mimeFor nm = "" then none else some (mimeFor nm) := by
  unfold claimMime mimeFor recognizedExts
  by_cases h1 : endsWithStr (lowerStr nm) ".png" <;>
    by_cases h2 : endsWithStr (lowerStr nm) ".jpg" <;>
      by_cases h3 : endsWithStr (lowerStr nm) ".jpeg" <;>
        by_cases h4 : endsWithStr (lowerStr nm) ".svg" <;>
          by_cases h5 : endsWithStr (lowerStr nm) ".css" <;>
            by_cases h6 : endsWithStr (lowerStr nm) ".js" <;>
              simp [List.find?, h1, h2, h3, h4, h5, h6]

theorem find?_eq_self_of_nodup (entries : List ZipEntry)
    (hnd : (entries.map ZipEntry.path).Nodup) (e : ZipEntry) (he : e ∈ entries) :
    List.find? (fun x => x.path = e.path) entries = some e := by
  induction entries with
  | nil => cases he
  | cons a t ih =>
      rw [List.map_cons, List.nodup_cons] at hnd
      rcases List.mem_cons.mp he with rfl | het
      · rw [List.find?_cons_of_pos _ (by simp)]
      · have hne : a.path ≠ e.path := by
          intro hp
          exact hnd.1 (hp ▸ List.mem_map_of_mem ZipEntry.path het)
        rw [List.find?_cons_of_neg _ (by simpa using hne)]
        exact ih hnd.2 het

theorem zipFileByName_self (entries : List ZipEntry)
    (hnd : (entries.map ZipEntry.path).Nodup) (e : ZipEntry) (he : e ∈ entries) :
    zipFileByName entries e.path = if e.isDir then none else some e := by
  unfold zipFileByName
  rw [find?_eq_self_of_nodup entries hnd e he]

theorem claimAssetList_cons (e : ZipEntry) (rest : List ZipEntry) :
    claimAssetList (e :: rest) =
      (if e.isDir then []
       else
        match claimMime e.path with
        | some m => [(e.path, m)]
        | none => []) ++ claimAssetList rest := by
  unfold claimAssetList
  by_cases hd : e.isDir
  · simp [List.filter_cons, hd]
  · simp only [List.filter_cons, hd, Bool.not_false, if_neg, Bool.false_eq_true,
      not_false_eq_true, if_pos, List.filterMap_cons]
    cases claimMime e.path <;> simp

theorem assetLoop_true_char (entries : List ZipEntry) (urls : Nat → String)
    (hnd : (entries.map ZipEntry.path).Nodup) :
    ∀ (l : List ZipEntry) (st : AssetState), (∀ e ∈ l, e ∈ entries) →
      assetLoop entries (fun _ => true) urls (l.map ZipEntry.path) st =
        (.ok { assetMap := st.assetMap ++ claimAssetMap urls st.next (claimAssetList l),
               next := st.next + (claimAssetList l).length,
               events := st.events ++ claimHandleEvents urls st.next (claimAssetList l) },
         { assetMap := st.assetMap ++ claimAssetMap urls st.next (claimAssetList l),
           next := st.next + (claimAssetList l).length,
           events := st.events ++ claimHandleEvents urls st.next (claimAssetList l) }) := by
  intro l
  induction l with
  | nil =>
      intro st _
      simp [assetLoop, claimAssetList, claimAssetMap, claimHandleEvents]
  | cons e rest ih =>
      intro st hmem
      have he : e ∈ entries := hmem e (List.mem_cons_self e rest)
      have hrest : ∀ x ∈ rest, x ∈ entries :=
        fun x hx => hmem x (List.mem_cons_of_mem e hx)
      rw [List.map_cons]
      simp only [assetLoop]
      rw [claimAssetList_cons]
      by_cases hm : mimeFor e.path = ""
      · have hcm : claimMime e.path = none := by
          rw [claimMime_eq_mimeFor, if_pos hm]
        rw [if_pos hm, ih st hrest]
        rcases hd : e.isDir <;> simp [hcm]
      · have hcm : claimMime e.path = some (mimeFor e.path) := by
          rw [claimMime_eq_mimeFor, if_neg hm]
        rw [if_neg hm]
        unfold createBlobUrl
        rw [zipFileByName_self entries hnd e he]
        by_cases hd : e.isDir = true
        · rw [if_pos hd]
          refine (ih st hrest).trans ?_
          simp [hcm, hd]
        · rw [if_neg hd]
          refine (ih ⟨st.assetMap ++ [(e.path, urls st.next)], st.next + 1,
            st.events ++ [UrlEvent.create (urls st.next) (mimeFor e.path)]⟩
            hrest).trans ?_
          simp only [hcm, hd]
          simp [claimAssetMap, claimHandleEvents, Nat.add_comm, Nat.add_assoc,
            Nat.add_left_comm]

/-- C9: with every entry readable, asset materialization succeeds and creates
exactly one resource handle per non-directory archive entry whose lowercased
name ends in `.png`, `.jpg`, `.jpeg`, `.svg`, `.css` or `.js`, typed
`image/png`, `image/jpeg`, `image/jpeg`, `image/svg+xml`, `text/css`,
`application/javascript` respectively; every other entry — directory entries
and unrecognized formats such as `.gif` or `.woff` included — produces no
handle and no `assetMap` binding, hence is never rewritten. -/
theorem assetLoop_materializes_exactly (entries : List ZipEntry)
    (urls : Nat → String) (hnd : (entries.map ZipEntry.path).Nodup) :
    assetLoop entries (fun _ => true) urls (entries.map ZipEntry.path)
        { assetMap := [], next := 0, events := [] } =
      (.ok { assetMap := claimAssetMap urls 0 (claimAssetList entries),
             next := (claimAssetList entries).length,
             events := claimHandleEvents urls 0 (claimAssetList entries) },
       { assetMap := claimAssetMap urls 0 (claimAssetList entries),
         next := (claimAssetList entries).length,
         events := claimHandleEvents urls 0 (claimAssetList entries) }) := by
  have h := assetLoop_true_char entries urls hnd entries
    { assetMap := [], next := 0, events := [] } (fun e he => he)
  simpa using h

/-- C9 witness: a concrete archive (entry point, a PNG, a directory, a
stylesheet, a GIF) with distinct paths: exactly the PNG and the stylesheet
materialize handles, with their claimed content types; the directory and the
GIF produce nothing. -/
theorem assetLoop_materializes_exactly_witness :
    assetLoop
        [⟨"index.html", false⟩, ⟨"a.png", false⟩, ⟨"css/", true⟩,
         ⟨"style.css", false⟩, ⟨"anim.gif", false⟩]
        (fun _ => true) (fun n => "blob:" ++ String.mk (List.replicate n 'x'))
        ([⟨"index.html", false⟩, ⟨"a.png", false⟩, ⟨"css/", true⟩,
          ⟨"style.css", false⟩, ⟨"anim.gif", false⟩].map ZipEntry.path)
        { assetMap := [], next := 0, events := [] } =
      (.ok { assetMap := [("a.png", "blob:"), ("style.css", "blob:x")],
             next := 2,
             events := [.create "blob:" "image/png",
                        .create "blob:x" "text/css"] },
       { assetMap := [("a.png", "blob:"), ("style.css", "blob:x")],
         next := 2,
         events := [.create "blob:" "image/png",
                    .create "blob:x" "text/css"] }) := by
  have h := assetLoop_materializes_exactly
      [⟨"index.html", false⟩, ⟨"a.png", false⟩, ⟨"css/", true⟩,
       ⟨"style.css", false⟩, ⟨"anim.gif", false⟩]
      (fun n => "blob:" ++ String.mk (List.replicate n 'x')) (by decide)
  exact h.trans (by rfl)

/-! ## Helper lemmas: reference rewriting -/

theorem dropLit_eq_some {p s r : List Char} :
    dropLit p s = some r ↔ s = p ++ r := by
  induction p generalizing s with
  | nil => simp [dropLit, eq_comm]
  | cons a ps ih =>
      cases s with
      | nil => simp [dropLit]
      | cons c cs =>
          by_cases h : a = c
          · subst h; simp [dropLit, ih]
          · have h' : c ≠ a := fun hh => h hh.symm
            simp [dropLit, h, h']

theorem dropLit_append (p q s : List Char) :
    dropLit (p ++ q) s = (dropLit p s).bind (dropLit q) := by
  induction p generalizing s with
  | nil => simp [dropLit]
  | cons a ps ih =>
      cases s with
      | nil => simp [dropLit]
      | cons c cs => by_cases h : a = c <;> simp [dropLit, h, ih]

theorem findSome?_option_bind {α β γ : Type} (x : Option γ) (f : α → γ → Option β)
    (l : List α) :
    List.findSome? (fun a => (x.bind (f a))) l =
      x.bind (fun v => List.findSome? (fun a => f a v) l) := by
  cases x with
  | none =>
      simp only [Option.none_bind]
      induction l with
      | nil => rfl
      | cons a t ih => simpa [List.findSome?_cons] using ih
  | some v => simp only [Option.some_bind]

theorem option_match_id {α : Type} (x : Option α) :
    (match x with | some b => some b | none => none) = x := by
  cases x <;> rfl

theorem findSome?_quotes {β : Type} (r : List Char) (g : List Char → Option β) :
    List.findSome? (fun q => (dropLit [q] r).bind g) ['"', '\''] =
      (dropQuote r).bind g := by
  cases r with
  | nil => simp [List.findSome?_cons, dropLit, dropQuote]
  | cons c cs =>
      rw [List.findSome?_cons]
      by_cases h1 : c = '"'
      · subst h1
        have h2 : ¬ (('\'' : Char) = '"') := by decide
        simp only [dropLit, if_pos rfl, Option.some_bind, dropQuote, isQuoteCh]
        simp [List.findSome?_cons, dropLit, h2]
        exact option_match_id (g cs)
      · by_cases h2 : c = '\''
        · subst h2
          have h1' : ¬ (('"' : Char) = '\'') := by decide
          simp only [dropLit, if_neg h1', Option.none_bind, List.findSome?_cons,
            List.findSome?_nil, if_pos rfl, Option.some_bind, dropQuote, isQuoteCh]
          simp
          exact option_match_id (g cs)
        · have h1' : ¬ (('"' : Char) = c) := fun hh => h1 hh.symm
          have h2' : ¬ (('\'' : Char) = c) := fun hh => h2 hh.symm
          simp [List.findSome?_cons, dropLit, dropQuote, isQuoteCh, h1', h2', h1, h2]

theorem findSome?_bodies {β : Type} (path : String) (r1 : List Char)
    (f : List Char → β) :
    List.findSome? (fun body : String =>
        (dropLit body.data r1).bind (fun rb => (dropQuote rb).map f))
      ["./" ++ path, path] = (matchTail path r1).map f := by
  unfold matchTail
  simp only [List.findSome?_cons, List.findSome?_nil]
  cases hb1 : dropLit ("./" ++ path).data r1 with
  | none =>
      simp only [Option.none_bind]
      cases hb2 : dropLit path.data r1 with
      | none => simp
      | some r3 =>
          simp only [Option.some_bind]
          exact option_match_id _
  | some rb =>
      simp only [Option.some_bind]
      cases hq : dropQuote rb with
      | some r2 => simp
      | none =>
          simp only [Option.map_none', Option.none_bind]
          cases hb2 : dropLit path.data r1 with
          | none => simp
          | some r3 =>
              simp only [Option.some_bind]
              exact option_match_id _

theorem option_bind_map {α β γ : Type} (x : Option α) (k : α → Option β)
    (f : β → γ) :
    (x.bind k).map f = x.bind (fun a => (k a).map f) := by
  cases x <;> rfl

theorem findSome?_quotes_map {β : Type} (r : List Char) (f : List Char → β) :
    List.findSome? (fun q => (dropLit [q] r).map f) ['"', '\''] =
      (dropQuote r).map f := by
  have hm : ∀ x : Option (List Char), x.map f = x.bind (fun z => some (f z)) := by
    intro x; cases x <;> rfl
  simp only [hm]
  exact findSome?_quotes r (fun z => some (f z))

theorem occAt_eq_patMatch (path : String) (s : List Char) :
    occAt path s = patMatch path s := by
  have hA : ∀ attr : String,
      List.findSome? (fun body : String =>
        List.findSome? (fun q1 =>
          List.findSome? (fun q2 =>
            (dropLit (attr.data ++ '=' :: q1 :: (body.data ++ [q2])) s).map
              (fun rest => (attr, rest))) ['"', '\''])
          ['"', '\''])
        ["./" ++ path, path]
      = (dropLit (attr.data ++ ['=']) s).bind (fun r =>
          (dropQuote r).bind (fun r1 =>
            (matchTail path r1).map (fun r2 => (attr, r2)))) := by
    intro attr
    have hsplit : ∀ (q1 q2 : Char) (body : String),
        dropLit (attr.data ++ '=' :: q1 :: (body.data ++ [q2])) s =
          (dropLit (attr.data ++ ['=']) s).bind (fun r =>
            (dropLit [q1] r).bind (fun r1 =>
              (dropLit body.data r1).bind (dropLit [q2]))) := by
      intro q1 q2 body
      have h1 : attr.data ++ '=' :: q1 :: (body.data ++ [q2]) =
          (attr.data ++ ['=']) ++ ([q1] ++ (body.data ++ [q2])) := by simp
      rw [h1, dropLit_append]
      refine congrArg _ (funext fun r => ?_)
      rw [dropLit_append]
      refine congrArg _ (funext fun r1 => ?_)
      rw [dropLit_append]
    simp only [hsplit]
    simp only [option_bind_map]
    simp only [findSome?_option_bind]
    simp only [findSome?_quotes_map]
    simp only [findSome?_quotes]
    simp only [findSome?_option_bind]
    simp only [findSome?_bodies]
  unfold occAt patMatch matchAttr
  simp only [hA]
  simp only [List.findSome?_cons, List.findSome?_nil]
  have hsrc_eq : ("src" : String).data ++ ['='] = "src=".data := by decide
  have hhref_eq : ("href" : String).data ++ ['='] = "href=".data := by decide
  rw [hsrc_eq, hhref_eq]
  cases hsrc : dropLit "src=".data s with
  | none =>
      simp only [Option.none_bind]
      cases hhref : dropLit "href=".data s with
      | none => rfl
      | some r =>
          simp only [Option.some_bind]
          cases hq : dropQuote r with
          | none => rfl
          | some r1 =>
              simp only [Option.some_bind]
              exact option_match_id _
  | some r =>
      have hs : s = "src=".data ++ r := dropLit_eq_some.mp hsrc
      have hhref : dropLit "href=".data s = none := by
        rw [hs]; rfl
      rw [hhref]
      simp only [Option.some_bind, Option.none_bind]
      cases hq : dropQuote r with
      | none => rfl
      | some r1 =>
          simp only [Option.some_bind]
          exact option_match_id _

theorem specScanRefs_eq_replaceScan (path url : String) :
    ∀ (fuel : Nat) (s : List Char),
      specScanRefs path url fuel s = replaceScan path url fuel s := by
  intro fuel
  induction fuel with
  | zero => intro s; cases s <;> rfl
  | succ f ih =>
      intro s
      cases s with
      | nil => rfl
      | cons c rest =>
          rw [specScanRefs, replaceScan, occAt_eq_patMatch]
          cases hp : patMatch path (c :: rest) with
          | none => exact congrArg (c :: ·) (ih rest)
          | some p => exact congrArg (replacementText p.1 url ++ ·) (ih p.2)

/-- C2 (amended): reference rewriting equals its specification: one pass per
materialized asset, in the archive's listed order; each pass replaces exactly
the textual occurrences `attr=q1⟨path⟩q2` in which `attr` is `src` or `href`,
`q1` and `q2` are each — independently, so mismatched quotes count too — a
double or a single quote, and `⟨path⟩` is the asset's archive-relative path
exactly or prefixed with a single `./`; each such occurrence is substituted
by `attr="⟨locator⟩"` (always double-quoted) and all remaining text of that
pass — including attribute references whose path matches no asset — is left
byte-for-byte unchanged. -/
theorem rewriteHtml_eq_spec (assets : List (String × String)) (html : String) :
    rewriteHtml assets html = rewriteHtmlSpec assets html := by
  unfold rewriteHtml rewriteHtmlSpec
  have hfun : (fun (h : String) (p : String × String) => replaceRefs p.1 p.2 h) =
      (fun (h : String) (p : String × String) =>
        String.mk (specScanRefs p.1 p.2 h.data.length h.data)) := by
    funext h p
    unfold replaceRefs
    rw [specScanRefs_eq_replaceScan]
  rw [hfun]

/-- C2 counterexample: with `logo.png` a materialized asset, the entry text
`<img src="logo.png'>` contains an attribute occurrence with mismatched
quotes — none of the four claimed forms `src="…"`, `src='…'`, `href="…"`,
`href='…'` — yet the rewrite (whose regex chooses each quote from the class
`["']` independently) replaces it, so the text is not left byte-for-byte
unchanged as the claim requires. -/
theorem rewriteHtml_cex :
    rewriteHtml [("logo.png", "blob:1")] "<img src=\"logo.png'>" =
      "<img src=\"blob:1\">" ∧
    "<img src=\"logo.png'>" ≠ "<img src=\"blob:1\">" := by decide

end DemoPres
